import Mathlib

attribute [local semireducible] Rat.add Rat.mul Rat.sub Rat.inv Rat.ofScientific

/-!
Verification of `suite2p/detection/anatomical.py` (anatomical cell detection).

The Python module is shallowly embedded: 2D arrays become `List (List _)`
(row-major), floating-point weights become `ℚ`, and the external
collaborators that live outside the embedded source file
(`utils.square_mask`, `utils.mask_ious`, `utils.mask_stats`, `cv2.resize`,
the cellpose model) are either modelled from the specification's
description of their contract or abstracted as function parameters; every
such definition carries a doc comment saying so.
-/

namespace Anatomical

/-- Read entry `(r, c)` of an integer label image, 0 outside. -/
def getN (m : List (List ℕ)) (r c : ℕ) : ℕ := (m.getD r []).getD c 0

/-- Read entry `(r, c)` of a rational-valued image, 0 outside. -/
def getQ (m : List (List ℚ)) (r c : ℕ) : ℚ := (m.getD r []).getD c 0

/-- `numpy`'s `arr.min()` on a nonempty array (0 for the empty list,
which the source never reaches on this path). -/
def minQ : List ℚ → ℚ
  | [] => 0
  | [a] => a
  | a :: b :: t => min a (minQ (b :: t))

/-- `numpy`'s `arr.max()` on a nonempty array (0 for the empty list). -/
def maxQ : List ℚ → ℚ
  | [] => 0
  | [a] => a
  | a :: b :: t => max a (maxQ (b :: t))

/-- `numpy`'s `np.argmax`: index of the first occurrence of the maximum. -/
def argmaxIdx : List ℚ → ℕ
  | [] => 0
  | [_] => 0
  | a :: b :: t => if maxQ (b :: t) ≤ a then 0 else argmaxIdx (b :: t) + 1

/-- `numpy`'s `np.argmin`: index of the first occurrence of the minimum. -/
def argminIdx : List ℚ → ℕ
  | [] => 0
  | [_] => 0
  | a :: b :: t => if a ≤ minQ (b :: t) then 0 else argminIdx (b :: t) + 1

/-- Insert into a sorted list, for `sortQ`. -/
def insertQ (a : ℚ) : List ℚ → List ℚ
  | [] => [a]
  | b :: t => if a ≤ b then a :: b :: t else b :: insertQ a t

/-- Sorting of a rational list (insertion sort), used to model `np.median`. -/
def sortQ : List ℚ → List ℚ
  | [] => []
  | a :: t => insertQ a (sortQ t)

/-- `np.median`: middle element of the sorted list for odd length, mean of
the two middle elements for even length. -/
def medianQ (l : List ℚ) : ℚ :=
  let s := sortQ l
  if l.length % 2 = 1 then s.getD (l.length / 2) 0
  else (s.getD (l.length / 2 - 1) 0 + s.getD (l.length / 2) 0) / 2

/-- Largest label id occurring in an integer label image (`masks.max()`). -/
def maxLabel (m : List (List ℕ)) : ℕ := m.flatten.foldr max 0

/-- One region record ("stat" dict) as read and written by `refine_masks`:
pixel rows, pixel columns, per-pixel weights, and the anatomical flag. -/
structure Stat where
  ypix : List ℕ
  xpix : List ℕ
  lam : List ℚ
  anatomical : Bool
deriving DecidableEq

/-- Value of the dense weight map rebuilt from a stat record
(`mask[ypix0, xpix0] = stat["lam"]`): numpy fancy assignment, where for a
repeated coordinate the last write wins; zero elsewhere. -/
def denseVal (stat : Stat) (r c : ℕ) : ℚ :=
  match ((List.range stat.ypix.length).filter
      (fun j => stat.ypix.getD j 0 == r && stat.xpix.getD j 0 == c)).getLast? with
  | some j => stat.lam.getD j 0
  | none => 0

/-- The dense `(Lyc, Lxc)` weight map of a stat record
(`mask = np.zeros((Lyc, Lxc)); mask[ypix0, xpix0] = stat["lam"]`). -/
def denseMask (stat : Stat) (Lyc Lxc : ℕ) : List (List ℚ) :=
  (List.range Lyc).map (fun r => (List.range Lxc).map (fun c => denseVal stat r c))

/-- Modelled from the spec: `utils.square_mask` (external collaborator, not
part of the embedded file). Crops from `mask` a `2*ly` square window
centered at `(yi, xi)`: "window extent is `[center-half, center+half)`
intersected with the full frame", zero outside the frame. -/
def square_mask (mask : List (List ℚ)) (ly yi xi : ℕ) : List (List ℚ) :=
  (List.range (2 * ly)).map (fun r =>
    (List.range (2 * ly)).map (fun c =>
      let fr : ℤ := (r : ℤ) + (yi : ℤ) - (ly : ℤ)
      let fc : ℤ := (c : ℤ) + (xi : ℤ) - (ly : ℤ)
      if 0 ≤ fr ∧ 0 ≤ fc then getQ mask fr.toNat fc.toNat else 0))

/-- Number of cells `(r, c)` of the `2*ly` square window satisfying `p`. -/
def cellCount (ly : ℕ) (p : ℕ → ℕ → Bool) : ℕ :=
  ((List.range (2 * ly)).map
    (fun r => ((List.range (2 * ly)).filter (fun c => p r c)).length)).sum

/-- Modelled from the spec: one entry of `utils.mask_ious` (external
collaborator): "IOU(a,b) = |a∩b| / |a∪b|", between label `id` of the patch
mask and the binarized functional mask (`func_mask > 0` as a single
foreground label). -/
def iouOf (patch : List (List ℕ)) (func : List (List ℚ)) (ly id : ℕ) : ℚ :=
  let inter := cellCount ly (fun r c => getN patch r c == id && decide (0 < getQ func r c))
  let uni := cellCount ly (fun r c => getN patch r c == id || decide (0 < getQ func r c))
  (inter : ℚ) / (uni : ℚ)

/-- Modelled from the spec: `utils.mask_ious` output as used by
`refine_masks` — one IOU per patch-mask id `1 .. patch_mask.max()` against
the binarized functional mask. -/
def iouList (patch : List (List ℕ)) (func : List (List ℚ)) (ly : ℕ) : List ℚ :=
  (List.range (maxLabel patch)).map (fun k => iouOf patch func ly (k + 1))

/-- `max(0, ly - c)`: start of the crop of the patch window to its overlap
with the full frame (one axis). -/
def cropLo (ly c : ℕ) : ℕ := ly - c

/-- `min(2*ly, L + ly - c)`: stop of the crop of the patch window to its
overlap with the full frame (one axis). -/
def cropHi (ly c L : ℕ) : ℕ := min (2 * ly) (L + ly - c)

/-- `np.nonzero(patch_mask == mask_id)` on the cropped patch window,
row-major, as (row, col) pairs in cropped coordinates. -/
def adoptCoords (patch : List (List ℕ)) (id ly yi xi Lyc Lxc : ℕ) : List (ℕ × ℕ) :=
  (List.range (cropHi ly yi Lyc - cropLo ly yi)).flatMap (fun r =>
    ((List.range (cropHi ly xi Lxc - cropLo ly xi)).filter
      (fun c => getN patch (r + cropLo ly yi) (c + cropLo ly xi) == id)).map
      (fun c => (r, c)))

/-- `lam0 = func_mask[ypix0, xpix0]`: the weights read from the cropped
functional mask at the adopted coordinates. -/
def adoptWeights (func : List (List ℚ)) (coords : List (ℕ × ℕ)) (ly yi xi : ℕ) :
    List ℚ :=
  coords.map (fun rc => getQ func (rc.1 + cropLo ly yi) (rc.2 + cropLo ly xi))

/-- `lam0[lam0 <= 0] = lam0.min()`: every non-positive entry is overwritten
with the minimum of the whole array. -/
def replaceNonpos (l : List ℚ) : List ℚ :=
  l.map (fun w => if w ≤ 0 then minQ l else w)

/-- The cropped functional mask of a region: `square_mask` of the dense
weight map rebuilt from the stat record. -/
def funcMaskOf (stat : Stat) (ly yi xi Lyc Lxc : ℕ) : List (List ℚ) :=
  square_mask (denseMask stat Lyc Lxc) ly yi xi

/-- The IOU array computed for one region of `refine_masks`. -/
def regionIous (stat : Stat) (patch : List (List ℕ)) (ly yi xi Lyc Lxc : ℕ) :
    List ℚ :=
  iouList patch (funcMaskOf stat ly yi xi Lyc Lxc) ly

/-- `len(ious) > 0 and ious.max() > 0.45`: the refinement acceptance test. -/
def adoptGate (ious : List ℚ) : Bool :=
  !ious.isEmpty && decide (9 / 20 < maxQ ious)

/-- The cropped-window coordinates of the region's best-matching patch id
(`mask_id = np.argmax(ious) + 1`). -/
def adoptedCoords (stat : Stat) (patch : List (List ℕ)) (ly yi xi Lyc Lxc : ℕ) :
    List (ℕ × ℕ) :=
  adoptCoords patch (argmaxIdx (regionIous stat patch ly yi xi Lyc Lxc) + 1)
    ly yi xi Lyc Lxc

/-- The weights read from the cropped functional mask for the region's
best-matching patch id (`lam0` before the non-positive replacement). -/
def adoptedRawWeights (stat : Stat) (patch : List (List ℕ)) (ly yi xi Lyc Lxc : ℕ) :
    List ℚ :=
  adoptWeights (funcMaskOf stat ly yi xi Lyc Lxc)
    (adoptedCoords stat patch ly yi xi Lyc Lxc) ly yi xi

/-- The body of `refine_masks` for one region: compute the region's IOU
array against the decoded patch mask; if the best IOU exceeds 0.45, adopt
the best-matching patch id's footprint (cropped to the frame overlap and
offset back to frame coordinates, with non-positive weights overwritten by
`lam0.min()`); otherwise leave the footprint and clear the flag. -/
def refine_masks_step (stat : Stat) (patch : List (List ℕ)) (ly yi xi Lyc Lxc : ℕ) :
    Stat :=
  if adoptGate (regionIous stat patch ly yi xi Lyc Lxc) then
    { ypix := (adoptedCoords stat patch ly yi xi Lyc Lxc).map
        (fun rc => rc.1 + (yi - ly)),
      xpix := (adoptedCoords stat patch ly yi xi Lyc Lxc).map
        (fun rc => rc.2 + (xi - ly)),
      lam := replaceNonpos (adoptedRawWeights stat patch ly yi xi Lyc Lxc),
      anatomical := true }
  else
    { stat with anatomical := false }

/-- `refine_masks`: the per-region step applied to every
(stat, patch, seed) triple, with `ly = patches[0].shape[0] // 2`. -/
def refine_masks (stats : List Stat) (patches : List (List (List ℕ)))
    (seeds : List (ℕ × ℕ)) (Lyc Lxc : ℕ) : List Stat :=
  let ly := (patches.getD 0 []).length / 2
  (stats.zip (patches.zip seeds)).map
    (fun t => refine_masks_step t.1 t.2.1 ly t.2.2.1 t.2.2.2 Lyc Lxc)

/-! ### List helper lemmas -/

theorem minQ_le_of_mem : ∀ {l : List ℚ} {w : ℚ}, w ∈ l → minQ l ≤ w
  | [a], w, hw => by
    rcases List.mem_singleton.mp hw with rfl
    exact le_of_eq rfl
  | a :: b :: t, w, hw => by
    rcases List.mem_cons.mp hw with rfl | hw
    · exact min_le_left _ _
    · exact le_trans (min_le_right _ _) (minQ_le_of_mem hw)

theorem minQ_mem : ∀ {l : List ℚ}, l ≠ [] → minQ l ∈ l
  | [a], _ => List.mem_singleton.mpr rfl
  | a :: b :: t, _ => by
    rw [show minQ (a :: b :: t) = min a (minQ (b :: t)) from rfl, min_def]
    split
    · exact List.mem_cons_self _ _
    · exact List.mem_cons_of_mem _ (minQ_mem (by simp))

theorem replaceNonpos_mem {l : List ℚ} {w : ℚ} (hw : w ∈ replaceNonpos l) :
    minQ l ≤ w ∧ (0 < w → w ∈ l) ∧ (w ≤ 0 → w = minQ l) := by
  rcases List.mem_map.mp hw with ⟨v, hv, rfl⟩
  by_cases h : v ≤ 0
  · refine ⟨by simp [h], fun _ => ?_, fun _ => by simp [h]⟩
    simpa [h] using minQ_mem (List.ne_nil_of_mem hv)
  · refine ⟨by simpa [h] using minQ_le_of_mem hv, fun _ => by simpa [h] using hv,
      fun hle => ?_⟩
    rw [if_neg h] at hle
    exact absurd hle h

theorem getD_of_lt {α : Type _} (l : List α) (n : ℕ) (d : α) (h : n < l.length) :
    l.getD n d = l.get ⟨n, h⟩ := by
  simp [List.getD_eq_getElem?_getD, List.getElem?_eq_getElem h]

theorem getD_mem_of_lt {α : Type _} (l : List α) (n : ℕ) (d : α)
    (h : n < l.length) : l.getD n d ∈ l := by
  rw [getD_of_lt l n d h]
  exact l.get_mem n h

theorem getD_map_of_lt {α β : Type _} (f : α → β) (l : List α) (n : ℕ) (d : α)
    (d' : β) (h : n < l.length) : (l.map f).getD n d' = f (l.getD n d) := by
  rw [getD_of_lt l n d h, getD_of_lt (l.map f) n d' (by simpa using h)]
  simp

theorem getD_range_of_lt (n k : ℕ) (d : ℕ) (h : k < n) :
    (List.range n).getD k d = k := by
  rw [getD_of_lt _ k d (by simpa using h)]
  simp

/-! ### Facts about the refinement step -/

theorem adoptGate_of_refined {stat : Stat} {patch : List (List ℕ)}
    {ly yi xi Lyc Lxc : ℕ}
    (h : (refine_masks_step stat patch ly yi xi Lyc Lxc).anatomical = true) :
    adoptGate (regionIous stat patch ly yi xi Lyc Lxc) = true := by
  by_cases hg : adoptGate (regionIous stat patch ly yi xi Lyc Lxc) = true
  · exact hg
  · rw [Bool.not_eq_true] at hg
    rw [refine_masks_step, hg] at h
    simp at h

theorem refine_masks_step_of_gate {stat : Stat} {patch : List (List ℕ)}
    {ly yi xi Lyc Lxc : ℕ}
    (hg : adoptGate (regionIous stat patch ly yi xi Lyc Lxc) = true) :
    refine_masks_step stat patch ly yi xi Lyc Lxc =
      { ypix := (adoptedCoords stat patch ly yi xi Lyc Lxc).map
          (fun rc => rc.1 + (yi - ly)),
        xpix := (adoptedCoords stat patch ly yi xi Lyc Lxc).map
          (fun rc => rc.2 + (xi - ly)),
        lam := replaceNonpos (adoptedRawWeights stat patch ly yi xi Lyc Lxc),
        anatomical := true } := by
  rw [refine_masks_step, hg]
  simp

theorem adoptCoords_bounds {patch : List (List ℕ)} {id ly yi xi Lyc Lxc : ℕ}
    {rc : ℕ × ℕ} (h : rc ∈ adoptCoords patch id ly yi xi Lyc Lxc) :
    rc.1 < cropHi ly yi Lyc - cropLo ly yi ∧
    rc.2 < cropHi ly xi Lxc - cropLo ly xi := by
  rw [adoptCoords, List.mem_flatMap] at h
  obtain ⟨r, hr, hrc⟩ := h
  rw [List.mem_map] at hrc
  obtain ⟨c, hc, rfl⟩ := hrc
  rw [List.mem_filter, List.mem_range] at hc
  rw [List.mem_range] at hr
  exact ⟨hr, hc.1⟩

/-! ### Concrete inputs for the refinement claims.

`c1Stat`/`c1Patch`: a 6×6 frame, a 4×4 patch (`ly = 2`) with seed `(2, 2)`;
the region's 2×2 footprint at rows 0–1, cols 0–1 carries weights
`[1, -1, 2, 3]` and the patch decodes id 1 on exactly that block, so the
footprint is adopted (IOU 3/4) and the weight `-1` is read back. -/

def c1Stat : Stat :=
  { ypix := [0, 0, 1, 1], xpix := [0, 1, 0, 1],
    lam := [1, -1, 2, 3], anatomical := false }

def c1Patch : List (List ℕ) :=
  [[1, 1, 0, 0], [1, 1, 0, 0], [0, 0, 0, 0], [0, 0, 0, 0]]

/-- `c4Stat`/`c4Patch`: a 6×6 frame and 6×6 patch (`ly = 3`, seed `(3, 3)`);
the footprint covers 20 pixels with weight 1 and the patch decodes id 1 on
a 9-pixel subset, so the single IOU is exactly 9/20 = 0.45. -/
def c4Stat : Stat :=
  { ypix := [0, 0, 0, 1, 1, 1, 2, 2, 2, 3, 3, 3, 3, 3, 3, 4, 4, 4, 4, 4],
    xpix := [0, 1, 2, 0, 1, 2, 0, 1, 2, 0, 1, 2, 3, 4, 5, 0, 1, 2, 3, 4],
    lam := List.replicate 20 1, anatomical := true }

def c4Patch : List (List ℕ) :=
  [[1, 1, 1, 0, 0, 0], [1, 1, 1, 0, 0, 0], [1, 1, 1, 0, 0, 0],
   [0, 0, 0, 0, 0, 0], [0, 0, 0, 0, 0, 0], [0, 0, 0, 0, 0, 0]]

/-- `c6Stat`/`c6Patch`: seed `(1, 2)` with `ly = 2` on a 6×6 frame, so the
patch window `[-1, 3) × [0, 4)` extends past the top frame edge only; the
patch decodes id 1 exactly on the region's footprint, so it is adopted. -/
def c6Stat : Stat :=
  { ypix := [0, 0, 1, 1], xpix := [1, 2, 1, 2],
    lam := [1, 1, 1, 1], anatomical := false }

def c6Patch : List (List ℕ) :=
  [[0, 0, 0, 0], [0, 1, 1, 0], [0, 1, 1, 0], [0, 0, 0, 0]]

/-- `c9Stat`/`c9Patch`: an all-zero decoded patch, so the IOU array is
empty and the region must be left unrefined. -/
def c9Stat : Stat :=
  { ypix := [0, 0, 1, 1], xpix := [0, 1, 0, 1],
    lam := [1, 2, 3, 4], anatomical := true }

def c9Patch : List (List ℕ) :=
  [[0, 0, 0, 0], [0, 0, 0, 0], [0, 0, 0, 0], [0, 0, 0, 0]]

/-! ### Claims C1, C4, C6, C9 -/

/-- C1 (counterexample): in `refine_masks`, a region whose footprint is
adopted can keep a non-positive weight: with footprint weights
`[1, -1, 2, 3]` the code's `lam0[lam0 <= 0] = lam0.min()` overwrites the
non-positive entry with the overall minimum `-1`, which is itself
non-positive, so `-1` survives in `stat["lam"]` — refuting the claim that
every weight of an adopted footprint is strictly positive and that
non-positive weights are replaced by the minimum positive weight. -/
theorem C1_counterexample :
    (refine_masks_step c1Stat c1Patch 2 2 2 6 6).anatomical = true ∧
    ¬ (∀ w ∈ (refine_masks_step c1Stat c1Patch 2 2 2 6 6).lam, 0 < w) := by
  decide

/-- C1 (amended): in `refine_masks`, whenever a region's footprint is
adopted (best IOU > 0.45), every weight of the resulting `stat["lam"]` is
bounded below by the minimum of the weights read from the cropped
`func_mask`: a weight that is positive is one of the read weights, and any
non-positive weight read from the cropped `func_mask` has been replaced by
the minimum weight found among the read weights (which may itself be
non-positive, so the result need not be strictly positive). -/
theorem C1_weight_replacement_amended (stat : Stat) (patch : List (List ℕ))
    (ly yi xi Lyc Lxc : ℕ)
    (had : (refine_masks_step stat patch ly yi xi Lyc Lxc).anatomical = true) :
    ∀ w ∈ (refine_masks_step stat patch ly yi xi Lyc Lxc).lam,
      minQ (adoptedRawWeights stat patch ly yi xi Lyc Lxc) ≤ w ∧
      (0 < w → w ∈ adoptedRawWeights stat patch ly yi xi Lyc Lxc) ∧
      (w ≤ 0 → w = minQ (adoptedRawWeights stat patch ly yi xi Lyc Lxc)) := by
  intro w hw
  rw [refine_masks_step_of_gate (adoptGate_of_refined had)] at hw
  exact replaceNonpos_mem hw

/-- C1 (witness): the amended statement at the concrete adopted region. -/
theorem C1_witness :
    (refine_masks_step c1Stat c1Patch 2 2 2 6 6).anatomical = true ∧
    ∀ w ∈ (refine_masks_step c1Stat c1Patch 2 2 2 6 6).lam,
      minQ (adoptedRawWeights c1Stat c1Patch 2 2 2 6 6) ≤ w ∧
      (0 < w → w ∈ adoptedRawWeights c1Stat c1Patch 2 2 2 6 6) ∧
      (w ≤ 0 → w = minQ (adoptedRawWeights c1Stat c1Patch 2 2 2 6 6)) :=
  ⟨by decide, C1_weight_replacement_amended c1Stat c1Patch 2 2 2 6 6 (by decide)⟩

/-- C4: the refinement acceptance test is strict: a region is adopted only
when the maximum IOU is strictly greater than 0.45, and a region whose
maximum IOU equals exactly 0.45 keeps its original footprint, with only
the anatomical flag set, to `False`. -/
theorem C4_strict_threshold (stat : Stat) (patch : List (List ℕ))
    (ly yi xi Lyc Lxc : ℕ) :
    ((refine_masks_step stat patch ly yi xi Lyc Lxc).anatomical = true →
      9 / 20 < maxQ (regionIous stat patch ly yi xi Lyc Lxc)) ∧
    (maxQ (regionIous stat patch ly yi xi Lyc Lxc) = 9 / 20 →
      refine_masks_step stat patch ly yi xi Lyc Lxc =
        { stat with anatomical := false }) := by
  constructor
  · intro had
    have hg := adoptGate_of_refined had
    rw [adoptGate, Bool.and_eq_true, decide_eq_true_eq] at hg
    exact hg.2
  · intro heq
    have hg : adoptGate (regionIous stat patch ly yi xi Lyc Lxc) = false := by
      rw [adoptGate, heq]
      simp
    rw [refine_masks_step, hg]
    simp

/-- C4 (witness): a concrete region whose single IOU is exactly
9/20 = 0.45 is left unrefined. -/
theorem C4_witness :
    maxQ (regionIous c4Stat c4Patch 3 3 3 6 6) = 9 / 20 ∧
    refine_masks_step c4Stat c4Patch 3 3 3 6 6 =
      { c4Stat with anatomical := false } :=
  ⟨by decide, (C4_strict_threshold c4Stat c4Patch 3 3 3 6 6).2 (by decide)⟩

/-- C6: for every region whose footprint is adopted and whose seed lies in
the frame, all recovered pixel coordinates — cropped to the frame overlap
and offset back to full-frame coordinates — lie inside
`[0, Lyc) × [0, Lxc)` (the lower bound holds because the coordinates are
naturals built by adding non-negative offsets). -/
theorem C6_recovered_coords_in_frame (stat : Stat) (patch : List (List ℕ))
    (ly yi xi Lyc Lxc : ℕ) (hy : yi < Lyc) (hx : xi < Lxc)
    (had : (refine_masks_step stat patch ly yi xi Lyc Lxc).anatomical = true) :
    (∀ y ∈ (refine_masks_step stat patch ly yi xi Lyc Lxc).ypix, y < Lyc) ∧
    (∀ x ∈ (refine_masks_step stat patch ly yi xi Lyc Lxc).xpix, x < Lxc) := by
  rw [refine_masks_step_of_gate (adoptGate_of_refined had)]
  constructor
  · intro y hy'
    rcases List.mem_map.mp hy' with ⟨rc, hrc, rfl⟩
    have hb := (adoptCoords_bounds hrc).1
    rw [cropHi, cropLo] at hb
    omega
  · intro x hx'
    rcases List.mem_map.mp hx' with ⟨rc, hrc, rfl⟩
    have hb := (adoptCoords_bounds hrc).2
    rw [cropHi, cropLo] at hb
    omega

/-- C6 (witness): the concrete adopted region whose patch window overhangs
the top frame edge only; every recovered coordinate lands in `[0, 6)`. -/
theorem C6_witness :
    (refine_masks_step c6Stat c6Patch 2 1 2 6 6).anatomical = true ∧
    (∀ y ∈ (refine_masks_step c6Stat c6Patch 2 1 2 6 6).ypix, y < 6) ∧
    (∀ x ∈ (refine_masks_step c6Stat c6Patch 2 1 2 6 6).xpix, x < 6) :=
  ⟨by decide,
    (C6_recovered_coords_in_frame c6Stat c6Patch 2 1 2 6 6 (by decide) (by decide)
      (by decide)).1,
    (C6_recovered_coords_in_frame c6Stat c6Patch 2 1 2 6 6 (by decide) (by decide)
      (by decide)).2⟩

/-- C9: a region whose IOU array is empty, or whose best IOU does not
exceed 0.45, keeps its `ypix`, `xpix` and `lam` fields unchanged and only
has its anatomical flag set, to `False`. -/
theorem C9_unrefined_preserves_footprint (stat : Stat) (patch : List (List ℕ))
    (ly yi xi Lyc Lxc : ℕ)
    (h : regionIous stat patch ly yi xi Lyc Lxc = [] ∨
      maxQ (regionIous stat patch ly yi xi Lyc Lxc) ≤ 9 / 20) :
    refine_masks_step stat patch ly yi xi Lyc Lxc =
      { stat with anatomical := false } := by
  have hg : adoptGate (regionIous stat patch ly yi xi Lyc Lxc) = false := by
    rcases h with h | h
    · rw [adoptGate, h]
      simp
    · rw [adoptGate]
      simp [not_lt.mpr h]
  rw [refine_masks_step, hg]
  simp

/-! ### Claim C5: label-id canonicalization in `roi_detect` -/

/-- `np.unique(np.int32(masks), return_inverse=True)` maps each entry to
its index in the sorted array of distinct values of the flattened mask,
i.e. to the number of distinct values strictly smaller than it. -/
def rankLT (l : List ℤ) (v : ℤ) : ℕ :=
  (l.dedup.filter (fun u => decide (u < v))).length

/-- The relabeling of `roi_detect`: `_, masks = np.unique(np.int32(masks),
return_inverse=True); masks = masks.reshape(shape)` — every entry becomes
its rank among the distinct values, and the shape is restored. -/
def relabel (m : List (List ℤ)) : List (List ℤ) :=
  m.map (fun row => row.map (fun v => (rankLT m.flatten v : ℤ)))

theorem rankLT_eq_toNat {m : List (List ℤ)} {n : ℕ} {v : ℤ}
    (hmem : ∀ u ∈ m.flatten, 0 ≤ u ∧ u ≤ (n : ℤ))
    (hall : ∀ j : ℕ, j ≤ n → ((j : ℤ) ∈ m.flatten))
    (hv : v ∈ m.flatten) : rankLT m.flatten v = v.toNat := by
  have hn : v ≤ (n : ℤ) := (hmem v hv).2
  have nodup : (m.flatten.dedup.filter (fun u => decide (u < v))).Nodup :=
    (List.nodup_dedup _).filter _
  have hfin : (m.flatten.dedup.filter (fun u => decide (u < v))).toFinset
      = Finset.Ico (0 : ℤ) v := by
    ext u
    simp only [List.mem_toFinset, List.mem_filter, List.mem_dedup,
      decide_eq_true_eq, Finset.mem_Ico]
    constructor
    · rintro ⟨hu, hlt⟩
      exact ⟨(hmem u hu).1, hlt⟩
    · rintro ⟨hu0, hult⟩
      have hun : ((u.toNat : ℤ)) = u := Int.toNat_of_nonneg hu0
      refine ⟨?_, hult⟩
      rw [← hun]
      exact hall u.toNat (by omega)
  have hcard : (m.flatten.dedup.filter (fun u => decide (u < v))).length
      = (Finset.Ico (0 : ℤ) v).card := by
    rw [← List.toFinset_card_of_nodup nodup, hfin]
  rw [rankLT, hcard, Int.card_Ico]
  simp

/-- C5 (counterexample): the mask `[[1]]` has contiguous ids starting at 1,
yet the relabeling maps it to `[[0]]` — `np.unique` makes ids contiguous
starting at 0 from the smallest value present, so without a background
pixel an already-contiguous mask is not fixed. -/
theorem C5_counterexample :
    relabel [[(1 : ℤ)]] = [[0]] ∧ ([[(0 : ℤ)]] : List (List ℤ)) ≠ [[1]] := by
  decide

/-- C5 (amended): the relabeling always preserves the mask's shape, and it
is the identity on every mask whose value set is exactly `{0, …, n}` for
some `n` — i.e. background 0 occurs and the positive ids are contiguous
starting at 1. (Without a background pixel the claim fails, see the
counterexample.) -/
theorem C5_relabel_amended :
    (∀ m : List (List ℤ), (relabel m).length = m.length ∧
      ∀ r, ((relabel m).getD r []).length = (m.getD r []).length) ∧
    (∀ (m : List (List ℤ)) (n : ℕ),
      (∀ u ∈ m.flatten, 0 ≤ u ∧ u ≤ (n : ℤ)) →
      (∀ j : ℕ, j ≤ n → ((j : ℤ) ∈ m.flatten)) →
      relabel m = m) := by
  constructor
  · intro m
    refine ⟨by simp [relabel], fun r => ?_⟩
    by_cases hr : r < m.length
    · rw [relabel, getD_map_of_lt _ m r [] [] hr]
      simp
    · rw [relabel, List.getD_eq_default _ _ (by simpa using not_lt.mp hr),
        List.getD_eq_default _ _ (not_lt.mp hr)]
  · intro m n hmem hall
    rw [relabel]
    conv_rhs => rw [← List.map_id m]
    refine List.map_congr_left fun row hrow => ?_
    rw [id_eq]
    conv_rhs => rw [← List.map_id row]
    refine List.map_congr_left fun v hv => ?_
    have hvm : v ∈ m.flatten := List.mem_flatten.mpr ⟨row, hrow, hv⟩
    rw [id_eq, rankLT_eq_toNat hmem hall hvm,
      Int.toNat_of_nonneg (hmem v hvm).1]

/-- C5 (witness): the amended statement at the concrete mask
`[[0, 1], [1, 0]]` (background present, ids contiguous from 1). -/
theorem C5_witness :
    (relabel [[(0 : ℤ), 1], [1, 0]]).length = 2 ∧
    relabel [[(0 : ℤ), 1], [1, 0]] = [[0, 1], [1, 0]] :=
  ⟨(C5_relabel_amended.1 [[(0 : ℤ), 1], [1, 0]]).1,
    C5_relabel_amended.2 [[(0 : ℤ), 1], [1, 0]] 1 (by decide) (by decide)⟩

/-- C9 (witness): with an all-zero decoded patch the IOU array is empty
and the concrete region's footprint is preserved verbatim. -/
theorem C9_witness :
    regionIous c9Stat c9Patch 2 2 2 6 6 = [] ∧
    refine_masks_step c9Stat c9Patch 2 2 2 6 6 =
      { c9Stat with anatomical := false } :=
  ⟨by decide,
    C9_unrefined_preserves_footprint c9Stat c9Patch 2 2 2 6 6 (Or.inl (by decide))⟩

/-! ### Claim C7: `mask_centers` -/

/-- Rows of the label image containing `id` (in increasing order);
`scipy.ndimage.find_objects` gives a bounding-box slice exactly when the
label occurs, i.e. when this list is nonempty. -/
def rowsWith (masks : List (List ℕ)) (id : ℕ) : List ℕ :=
  (List.range masks.length).filter (fun r => decide (id ∈ masks.getD r []))

/-- Columns of the label image containing `id` (in increasing order). -/
def colsWith (masks : List (List ℕ)) (id : ℕ) : List ℕ :=
  (List.range ((masks.map List.length).foldr max 0)).filter
    (fun c => (List.range masks.length).any (fun r => getN masks r c == id))

/-- One entry of `scipy.ndimage.find_objects` (external collaborator): the
bounding box `(rmin, rmax, cmin, cmax)` of label `id`, or `none` when the
label has no pixels. -/
def find_object (masks : List (List ℕ)) (id : ℕ) : Option (ℕ × ℕ × ℕ × ℕ) :=
  if rowsWith masks id = [] then none
  else some ((rowsWith masks id).headD 0, (rowsWith masks id).getLastD 0,
    (colsWith masks id).headD 0, (colsWith masks id).getLastD 0)

/-- The boolean sub-image `masks[sr, sc] == id` of the bounding box. -/
def cropEq (masks : List (List ℕ)) (id r0 r1 c0 c1 : ℕ) : List (List Bool) :=
  (List.range (r1 + 1 - r0)).map (fun r =>
    (List.range (c1 + 1 - c0)).map (fun c => getN masks (r + r0) (c + c0) == id))

/-- `mask_centers`: centers and diameters arrays with one entry per id
`1 .. masks.max()`; entries whose `find_objects` slice is `None` (id with
no pixels) are left at zero. `statsFn` abstracts `utils.mask_stats`
(external collaborator), modelled from the spec as "median center +
effective diameter from a boolean mask". -/
def mask_centers (statsFn : List (List Bool) → (ℤ × ℤ) × ℚ)
    (masks : List (List ℕ)) : List (ℤ × ℤ) × List ℚ :=
  (((List.range (maxLabel masks)).map (fun i =>
      match find_object masks (i + 1) with
      | none => ((0, 0), 0)
      | some (r0, r1, c0, c1) => statsFn (cropEq masks (i + 1) r0 r1 c0 c1))).map
        Prod.fst,
   ((List.range (maxLabel masks)).map (fun i =>
      match find_object masks (i + 1) with
      | none => ((0, 0), 0)
      | some (r0, r1, c0, c1) => statsFn (cropEq masks (i + 1) r0 r1 c0 c1))).map
        Prod.snd)

theorem find_object_eq_none {masks : List (List ℕ)} {id : ℕ}
    (h : id ∉ masks.flatten) : find_object masks id = none := by
  have hrow : rowsWith masks id = [] := by
    rw [rowsWith, List.filter_eq_nil_iff]
    intro r hr
    rw [decide_eq_true_eq]
    intro hmem
    rw [List.mem_range] at hr
    exact h (List.mem_flatten.mpr ⟨masks.getD r [], getD_mem_of_lt _ _ _ hr, hmem⟩)
  rw [find_object, if_pos hrow]

/-- C7: for every label mask (and every mask-statistics routine),
`mask_centers` returns center and diameter arrays with exactly one entry
per positive id `1 .. masks.max()`, and an id with zero pixels yields a
zero center and zero diameter (its `find_objects` slice is `None` and the
zero-initialized entry is kept) rather than an error. -/
theorem C7_mask_centers_total (f : List (List Bool) → (ℤ × ℤ) × ℚ)
    (masks : List (List ℕ)) :
    (mask_centers f masks).1.length = maxLabel masks ∧
    (mask_centers f masks).2.length = maxLabel masks ∧
    ∀ i, i < maxLabel masks → (i + 1) ∉ masks.flatten →
      (mask_centers f masks).1.getD i (1, 1) = (0, 0) ∧
      (mask_centers f masks).2.getD i 1 = 0 := by
  refine ⟨by simp [mask_centers], by simp [mask_centers], fun i hi habs => ?_⟩
  have hlen : i < ((List.range (maxLabel masks)).map (fun i =>
      match find_object masks (i + 1) with
      | none => (((0 : ℤ), (0 : ℤ)), (0 : ℚ))
      | some (r0, r1, c0, c1) => f (cropEq masks (i + 1) r0 r1 c0 c1))).length := by
    simpa using hi
  have hentry : ((List.range (maxLabel masks)).map (fun i =>
      match find_object masks (i + 1) with
      | none => (((0 : ℤ), (0 : ℤ)), (0 : ℚ))
      | some (r0, r1, c0, c1) => f (cropEq masks (i + 1) r0 r1 c0 c1))).getD i
        ((1, 1), 1) = ((0, 0), 0) := by
    rw [getD_map_of_lt _ _ i 0 ((1, 1), 1) (by simpa using hi),
      getD_range_of_lt _ _ _ hi, find_object_eq_none habs]
  constructor
  · rw [mask_centers]
    rw [getD_map_of_lt Prod.fst _ i ((1, 1), 1) (1, 1) hlen, hentry]
  · rw [mask_centers]
    rw [getD_map_of_lt Prod.snd _ i ((1, 1), 1) 1 hlen, hentry]

/-- C7 (witness): the mask `[[2, 0], [0, 2]]` has max id 2 but no pixel
with id 1; both arrays have two entries and the id-1 entries are zero. -/
theorem C7_witness :
    (mask_centers (fun _ => ((5, 7), 9)) [[2, 0], [0, 2]]).1.length = 2 ∧
    (mask_centers (fun _ => ((5, 7), 9)) [[2, 0], [0, 2]]).1.getD 0 (1, 1) = (0, 0) ∧
    (mask_centers (fun _ => ((5, 7), 9)) [[2, 0], [0, 2]]).2.getD 0 1 = 0 :=
  ⟨(C7_mask_centers_total (fun _ => ((5, 7), 9)) [[2, 0], [0, 2]]).1,
    ((C7_mask_centers_total (fun _ => ((5, 7), 9)) [[2, 0], [0, 2]]).2.2 0
      (by decide) (by decide)).1,
    ((C7_mask_centers_total (fun _ => ((5, 7), 9)) [[2, 0], [0, 2]]).2.2 0
      (by decide) (by decide)).2⟩

/-! ### Claim C10: `masks_to_stats` -/

/-- One record produced by `masks_to_stats`. -/
structure StatM where
  ypix : List ℕ
  xpix : List ℕ
  lam : List ℚ
  med : ℕ × ℕ
  footprint : ℕ
deriving DecidableEq, Inhabited

/-- `np.nonzero(masks[sr, sc] == id)` offset back by the bounding-box
start (`ypix0 += sr.start; xpix0 += sc.start`), row-major, as (row, col)
pairs. Empty when the label is absent (the source would fail unpacking the
`None` slice there; such ids produce no record here and every claim about
produced records assumes a present id). -/
def pixelsOf (masks : List (List ℕ)) (id : ℕ) : List (ℕ × ℕ) :=
  match find_object masks id with
  | none => []
  | some (r0, r1, c0, c1) =>
    (List.range (r1 + 1 - r0)).flatMap (fun r =>
      ((List.range (c1 + 1 - c0)).filter
        (fun c => getN masks (r + r0) (c + c0) == id)).map
        (fun c => (r + r0, c + c0)))

/-- The coordinate-wise median `(ymed, xmed)` of a pixel list
(`np.median(ypix0), np.median(xpix0)`). -/
def coordMedianOf (pix : List (ℕ × ℕ)) : ℚ × ℚ :=
  (medianQ (pix.map (fun p => ((p.1 : ℚ)))),
   medianQ (pix.map (fun p => ((p.2 : ℚ)))))

/-- `(xpix0 - xmed)**2 + (ypix0 - ymed)**2` for one pixel. -/
def sqDistTo (m : ℚ × ℚ) (p : ℕ × ℕ) : ℚ :=
  ((p.2 : ℚ) - m.2) ^ 2 + ((p.1 : ℚ) - m.1) ^ 2

/-- One record of `masks_to_stats`: the pixel lists, the weights read at
those pixels, and `med = [ypix0[imin], xpix0[imin]]` where `imin` is the
argmin of the squared distance to the coordinate-wise median. -/
def mkStat (weights : List (List ℚ)) (pix : List (ℕ × ℕ)) : StatM :=
  { ypix := pix.map Prod.fst,
    xpix := pix.map Prod.snd,
    lam := pix.map (fun p => getQ weights p.1 p.2),
    med := ((pix.map Prod.fst).getD
        (argminIdx (pix.map (fun p => sqDistTo (coordMedianOf pix) p))) 0,
      (pix.map Prod.snd).getD
        (argminIdx (pix.map (fun p => sqDistTo (coordMedianOf pix) p))) 0),
    footprint := 1 }

/-- `masks_to_stats`: one record per id `1 .. masks.max()`. -/
def masks_to_stats (masks : List (List ℕ)) (weights : List (List ℚ)) :
    List StatM :=
  (List.range (maxLabel masks)).map (fun i => mkStat weights (pixelsOf masks (i + 1)))

theorem argminIdx_lt : ∀ {l : List ℚ}, l ≠ [] → argminIdx l < l.length
  | [_], _ => by simp [argminIdx]
  | a :: b :: t, _ => by
    rw [argminIdx]
    split
    · simp
    · have h := argminIdx_lt (l := b :: t) (by simp)
      simpa using Nat.succ_lt_succ h

theorem getD_argminIdx : ∀ (l : List ℚ), l ≠ [] →
    l.getD (argminIdx l) 0 = minQ l
  | [_], _ => by simp [argminIdx, minQ]
  | a :: b :: t, _ => by
    rw [argminIdx]
    by_cases h : a ≤ minQ (b :: t)
    · rw [if_pos h, List.getD_cons_zero,
        show minQ (a :: b :: t) = min a (minQ (b :: t)) from rfl]
      exact (min_eq_left h).symm
    · rw [if_neg h, List.getD_cons_succ, getD_argminIdx (b :: t) (by simp),
        show minQ (a :: b :: t) = min a (minQ (b :: t)) from rfl]
      exact (min_eq_right (le_of_lt (not_le.mp h))).symm

theorem mkStat_med (weights : List (List ℚ)) (pix : List (ℕ × ℕ))
    (h : pix ≠ []) :
    (mkStat weights pix).med ∈ pix ∧
    ∀ q ∈ pix, sqDistTo (coordMedianOf pix) ((mkStat weights pix).med) ≤
      sqDistTo (coordMedianOf pix) q := by
  have hlen : pix.map (fun p => sqDistTo (coordMedianOf pix) p) ≠ [] := by
    simpa using h
  have hil : argminIdx (pix.map (fun p => sqDistTo (coordMedianOf pix) p)) <
      pix.length := by
    have hl := argminIdx_lt hlen
    simpa using hl
  have hmed : (mkStat weights pix).med =
      pix.getD (argminIdx (pix.map (fun p => sqDistTo (coordMedianOf pix) p)))
        (0, 0) := by
    rw [mkStat]
    rw [getD_map_of_lt Prod.fst pix _ (0, 0) 0 hil,
      getD_map_of_lt Prod.snd pix _ (0, 0) 0 hil]
  constructor
  · rw [hmed]
    exact getD_mem_of_lt _ _ _ hil
  · intro q hq
    rw [hmed]
    have h1 : sqDistTo (coordMedianOf pix)
        (pix.getD (argminIdx (pix.map (fun p => sqDistTo (coordMedianOf pix) p)))
          (0, 0)) =
        (pix.map (fun p => sqDistTo (coordMedianOf pix) p)).getD
          (argminIdx (pix.map (fun p => sqDistTo (coordMedianOf pix) p))) 0 :=
      (getD_map_of_lt _ pix _ (0, 0) 0 hil).symm
    rw [h1, getD_argminIdx _ hlen]
    exact minQ_le_of_mem (List.mem_map.mpr ⟨q, hq, rfl⟩)

/-- C10: for every label mask and weight image, each record produced by
`masks_to_stats` for a region with at least one pixel has a `med` field
that is itself a member pixel of that region, namely one minimizing the
squared distance to the coordinate-wise median of the region's pixels. -/
theorem C10_med_is_member_pixel (masks : List (List ℕ))
    (weights : List (List ℚ)) (i : ℕ) (hi : i < maxLabel masks)
    (hne : pixelsOf masks (i + 1) ≠ []) :
    ((masks_to_stats masks weights).getD i default).med ∈ pixelsOf masks (i + 1) ∧
    ∀ q ∈ pixelsOf masks (i + 1),
      sqDistTo (coordMedianOf (pixelsOf masks (i + 1)))
          (((masks_to_stats masks weights).getD i default).med) ≤
        sqDistTo (coordMedianOf (pixelsOf masks (i + 1))) q := by
  have hst : (masks_to_stats masks weights).getD i default =
      mkStat weights (pixelsOf masks (i + 1)) := by
    rw [masks_to_stats, getD_map_of_lt _ _ i 0 default (by simpa using hi),
      getD_range_of_lt _ _ _ hi]
  rw [hst]
  exact mkStat_med weights _ hne

/-- C10 (witness): on the mask `[[1, 1], [0, 1]]` the region's pixels are
`[(0,0), (0,1), (1,1)]`, the coordinate-wise median is `(0, 1)`, and the
record's `med` is the member pixel `(0, 1)`. -/
theorem C10_witness :
    pixelsOf [[1, 1], [0, 1]] 1 ≠ [] ∧
    ((masks_to_stats [[1, 1], [0, 1]] [[1, 2], [3, 4]]).getD 0 default).med ∈
      pixelsOf [[1, 1], [0, 1]] 1 :=
  ⟨by decide,
    (C10_med_is_member_pixel [[1, 1], [0, 1]] [[1, 2], [3, 4]] 0 (by decide)
      (by decide)).1⟩

/-! ### Claim C3: `estimate_diameter_from_activity` -/

/-- `mask = np.zeros((Ly, Lx), bool); mask[s["ypix"], s["xpix"]] = True`. -/
def boolMaskOf (Ly Lx : ℕ) (s : Stat) : List (List Bool) :=
  (List.range Ly).map (fun r =>
    (List.range Lx).map (fun c =>
      (List.range s.ypix.length).any
        (fun j => s.ypix.getD j 0 == r && s.xpix.getD j 0 == c)))

/-- `estimate_diameter_from_activity`: the inner `select_rois` call on the
copied ops (`anatomical_only = 0`) is abstracted as an `Except` value —
either the exception it raised or the stats it returned — and the diameter
computed by `utils.mask_stats` (external collaborator) is abstracted as
`diamFn`. The `try`/`except Exception` block maps any exception to the
`None` sentinel; an empty stat list also yields `None`; otherwise the
median of the per-region diameters is returned. -/
def estimate_diameter_from_activity (diamFn : List (List Bool) → ℚ)
    (Ly Lx : ℕ) (inner : Except String (List Stat)) : Option ℚ :=
  match inner with
  | .error _ => none
  | .ok stat =>
    if stat.length > 0 then
      some (medianQ (stat.map (fun s => diamFn (boolMaskOf Ly Lx s))))
    else none

/-- C3: `estimate_diameter_from_activity` never propagates a failure of
the fallback path: for every configuration, any exception raised by the
inner activity-based detection yields the sentinel `none`, a run that
finds no regions yields `none`, and a run that finds regions yields an
actual diameter. -/
theorem C3_fallback_never_raises (diamFn : List (List Bool) → ℚ)
    (Ly Lx : ℕ) :
    (∀ e, estimate_diameter_from_activity diamFn Ly Lx (Except.error e) = none) ∧
    estimate_diameter_from_activity diamFn Ly Lx (Except.ok []) = none ∧
    ∀ stats : List Stat, stats ≠ [] →
      ∃ d, estimate_diameter_from_activity diamFn Ly Lx (Except.ok stats) =
        some d := by
  refine ⟨fun e => rfl, rfl, fun stats hne => ?_⟩
  have hpos : stats.length > 0 := List.length_pos.mpr hne
  exact ⟨medianQ (stats.map (fun s => diamFn (boolMaskOf Ly Lx s))),
    by simp only [estimate_diameter_from_activity]; rw [if_pos hpos]⟩

/-- A one-pixel region record for the C3 witness. -/
def c3Stat : Stat :=
  { ypix := [0], xpix := [0], lam := [1], anatomical := false }

/-- C3 (witness): a raised exception gives `none` and a one-region result
gives an actual diameter. -/
theorem C3_witness :
    estimate_diameter_from_activity (fun _ => 3) 2 2 (Except.error "boom") =
      none ∧
    ([c3Stat] ≠ []) ∧
    ∃ d, estimate_diameter_from_activity (fun _ => 3) 2 2
      (Except.ok [c3Stat]) = some d :=
  ⟨(C3_fallback_never_raises (fun _ => 3) 2 2).1 "boom", by decide,
    (C3_fallback_never_raises (fun _ => 3) 2 2).2.2 [c3Stat] (by decide)⟩

/-! ### Claims C2 and C8: the diameter handling of `select_rois` -/

/-- The `diameter` argument of `select_rois`: Python `None`, a scalar, or
a list/array pair. -/
inductive DiamArg where
  | noneD : DiamArg
  | scalar : ℚ → DiamArg
  | pair : List ℚ → DiamArg

/-- Shapes `(rows, cols)` of the detection image handed to `roi_detect`
and of the final mask returned by `select_rois`. -/
structure RoiShapes where
  detImg : ℕ × ℕ
  finalMask : ℕ × ℕ
deriving DecidableEq

/-- The diameter resolution and rescale bookkeeping of `select_rois`,
tracking image/mask shapes; `cv2.resize` (external collaborator) is
modelled by its effect on shape — `cv2.resize(img, (w, h))` has shape
`(h, w)` — and the detection (`roi_detect`) is taken to return a mask of
the same shape as its input image (`relabel` preserves shape).
Branches, from the source:
* `diameter is None`: the `else` at the bottom of the resolution step only
  prints; the subsequent call `roi_detect(..., diameter=diameter[1], ...)`
  subscripts `None` and raises `TypeError` before any detection runs (the
  local `rescale` would also be unbound at the later resize-back test).
* scalar: `rescale = 1.0`, `diameter = [diameter, diameter]`, no resize.
* list with `len(ops["diameter"]) > 1`: `rescale = diameter[1]/diameter[0]`
  and `img = cv2.resize(img, (Lxc, int(Lyc * rescale)))`; after detection,
  when `rescale != 1.0` the mask is resized back to `(Lxc, Lyc)` with
  nearest-neighbor interpolation.
* list with `len(ops["diameter"]) <= 1`: `diameter = [diameter, diameter]`
  nests the list, and `diameter[1] > 0` compares a list with an int,
  raising `TypeError`. -/
def selectRoisShapes (diameter : DiamArg) (opsDiamLen Lyc Lxc : ℕ) :
    Except String RoiShapes :=
  match diameter with
  | .noneD => Except.error "TypeError: NoneType is not subscriptable"
  | .scalar _ => Except.ok { detImg := (Lyc, Lxc), finalMask := (Lyc, Lxc) }
  | .pair l =>
    if opsDiamLen > 1 then
      if l.getD 1 0 / l.getD 0 0 ≠ 1 then
        Except.ok
          { detImg := ((⌊(Lyc : ℚ) * (l.getD 1 0 / l.getD 0 0)⌋).toNat, Lxc),
            finalMask := (Lyc, Lxc) }
      else
        Except.ok
          { detImg := ((⌊(Lyc : ℚ) * (l.getD 1 0 / l.getD 0 0)⌋).toNat, Lxc),
            finalMask := ((⌊(Lyc : ℚ) * (l.getD 1 0 / l.getD 0 0)⌋).toNat, Lxc) }
    else Except.error "TypeError: list is not comparable with int"

/-- C2 (code bug): calling `select_rois` with `diameter=None` does not
reach detection — the call `roi_detect(..., diameter=diameter[1], ...)`
subscripts `None` and raises `TypeError` first, although the code's own
printout promises "diameter will be estimated by cellpose if possible";
with `diameter=0` the scalar path does complete (0 is converted to `None`
inside `roi_detect` for the model's automatic estimation). -/
theorem C2_none_diameter_raises (opsDiamLen Lyc Lxc : ℕ) :
    (∃ msg, selectRoisShapes DiamArg.noneD opsDiamLen Lyc Lxc =
      Except.error msg) ∧
    (∃ s, selectRoisShapes (DiamArg.scalar 0) opsDiamLen Lyc Lxc =
      Except.ok s) :=
  ⟨⟨_, rfl⟩, ⟨_, rfl⟩⟩

/-- C8: with the anisotropic diameter pair `[10, 20]` (and
`ops["diameter"]` of length 2), the detection image is resized vertically
by the ratio `20/10 = 2` — shape `(2*Lyc, Lxc)` — and since the rescale is
not 1 the output mask is resized back, so the final mask's shape equals
the input movie's frame shape `(Lyc, Lxc)`. -/
theorem C8_rescale_roundtrip (Lyc Lxc : ℕ) :
    selectRoisShapes (DiamArg.pair [10, 20]) 2 Lyc Lxc =
      Except.ok { detImg := (2 * Lyc, Lxc), finalMask := (Lyc, Lxc) } := by
  have h1 : (([(10 : ℚ), 20].getD 1 0) / ([(10 : ℚ), 20].getD 0 0)) = 2 := by
    norm_num
  have h2 : ((Lyc : ℚ) * 2) = ((2 * Lyc : ℕ) : ℚ) := by
    push_cast
    ring
  rw [selectRoisShapes]
  rw [if_pos (by norm_num : 2 > 1), h1, if_pos (by norm_num : (2 : ℚ) ≠ 1),
    h2, Int.floor_natCast]
  simp
  omega

end Anatomical
